import Mathlib

set_option linter.unusedVariables false

/- Verification of the transcript-to-podcast pipeline (src/app.py).
   Transcripts are modelled as `List Char`; each regex of the source is
   embedded as an explicit character-level scanner with the exact
   leftmost / greedy / non-overlapping semantics of Python's `re`. -/

/-- Characters matched by Python's regex class \s and stripped by str.strip (ASCII fragment). -/
def isPySpace (c : Char) : Bool :=
  c == ' ' || c == '\t' || c == '\n' || c == '\r' || c == '\x0b' || c == '\x0c'

/-- Characters matched by the character class [A-Za-z]. -/
def isAlpha (c : Char) : Bool :=
  decide ('A' ≤ c ∧ c ≤ 'Z') || decide ('a' ≤ c ∧ c ≤ 'z')

/-- Python str.strip(): drop leading and trailing whitespace. -/
def pyStrip (l : List Char) : List Char :=
  ((l.dropWhile isPySpace).reverse.dropWhile isPySpace).reverse

/-- Bracket characters, for Python str.strip("[]"). -/
def isBrk (c : Char) : Bool := c == '[' || c == ']'

/-- Python element.strip("[]"): drop leading and trailing bracket characters. -/
def stripBrk (l : List Char) : List Char :=
  ((l.dropWhile isBrk).reverse.dropWhile isBrk).reverse

/-- pat occurs at the very front of the second list. -/
def hasPre : List Char → List Char → Bool
  | [], _ => true
  | _ :: _, [] => false
  | p :: ps, c :: cs => p == c && hasPre ps cs

/-- Python substring containment, `pat in s`. -/
def hasSub (pat : List Char) : List Char → Bool
  | [] => hasPre pat []
  | c :: cs => hasPre pat (c :: cs) || hasSub pat cs

/-- Python cue_text.split(":", 1)[1]: everything after the first colon. -/
def afterFirstColon : List Char → List Char
  | [] => []
  | c :: cs => if c == ':' then cs else afterFirstColon cs

/-- The regex fragment `\[` matches at this suffix. -/
def lbHere : List Char → Bool
  | '[' :: _ => true
  | _ => false

/-- The regex `\n[A-Za-z]+:` matches at the head of this suffix. -/
def matchNLHere : List Char → Bool
  | '\n' :: cs =>
    !(cs.takeWhile isAlpha).isEmpty && decide ((cs.dropWhile isAlpha).head? = some ':')
  | _ => false

/-- Index of the first suffix satisfying p (semantics of re.search: leftmost match). -/
def searchIdx (p : List Char → Bool) : List Char → Option Nat
  | [] => if p [] then some 0 else none
  | c :: cs => if p (c :: cs) then some 0 else (searchIdx p cs).map (fun n => n + 1)

/-- End offset of a dialogue turn's raw span, relative to the text after the
colon and whitespace: the source initialises end_pos to the text length and
lowers it by the `\n[A-Za-z]+:` search and then by the `\[` search. -/
def turnEnd (tail : List Char) : Nat :=
  let e0 := tail.length
  let e1 := match searchIdx matchNLHere tail with
    | some d => if d < e0 then d else e0
    | none => e0
  match searchIdx lbHere tail with
  | some d => if d < e1 then d else e1
  | none => e1

/-- Spec-side formulation of the same boundary: the earliest of (a) the next
newline immediately followed by another Speaker: token, (b) the next '[',
(c) end of text. -/
def specTurnEnd (tail : List Char) : Nat :=
  Nat.min (Nat.min ((searchIdx matchNLHere tail).getD tail.length)
      ((searchIdx lbHere tail).getD tail.length)) tail.length

/-- The trimmed turn text computed by the source from the characters after the
matched colon (cs2 is the text after the ':'). -/
def turnText (cs2 : List Char) : List Char :=
  let tail := cs2.dropWhile isPySpace
  pyStrip (tail.take (turnEnd tail))

/-- A dialogue turn as built by the second scanning pass of the source:
match start offset, speaker token, trimmed nonempty text. -/
structure Turn where
  pos : Nat
  speaker : List Char
  text : List Char
deriving DecidableEq, Repr

/-- The non-overlapping scan of re.finditer over the pattern
([A-Za-z]+):\s* together with the per-match span computation of the source
(lines 68-91 of src/app.py).  The fuel argument only bounds recursion depth;
each step consumes at least one character so s.length suffices. -/
def turnsAux : Nat → List Char → Nat → List Turn
  | 0, _, _ => []
  | _ + 1, [], _ => []
  | fuel + 1, c :: cs, i =>
    if isAlpha c then
      match (c :: cs).dropWhile isAlpha with
      | ':' :: cs2 =>
        let run := (c :: cs).takeWhile isAlpha
        let text := turnText cs2
        let rest := turnsAux fuel (cs2.dropWhile isPySpace)
          (i + run.length + 1 + (cs2.takeWhile isPySpace).length)
        if text = [] then rest else ⟨i, run, text⟩ :: rest
      | _ => turnsAux fuel ((c :: cs).dropWhile isAlpha)
          (i + ((c :: cs).takeWhile isAlpha).length)
    else
      turnsAux fuel cs (i + 1)

/-- All dialogue turns of a transcript, in scan order. -/
def extractTurns (s : List Char) : List Turn := turnsAux s.length s 0

/-- Lookahead positions accepted by the first-pass pattern
([A-Za-z]+):\s*((?:.+?)(?=\n[A-Za-z]+:|$|\[)) for the end of its lazy group:
end of string, position of the final newline, a '[', or a newline followed
by another Speaker: token. -/
def lookP1 (t : List Char) : Bool :=
  t.isEmpty || decide (t = ['\n']) || lbHere t || matchNLHere t

/-- Least x ≥ 1 such that lookP1 holds after dropping x characters
(the lazy `.+?` consumes at least one character, then stops as early as possible). -/
def findE : List Char → Nat
  | [] => 0
  | _ :: cs => if lookP1 cs then 1 else 1 + findE cs

/-- Group-1 names produced (in scan order) by re.findall over the first-pass
pattern (line 27-28 of src/app.py).  Unlike the second pass, each match
consumes its whole text group, so subsequent Speaker: tokens inside a
consumed span yield no name here. -/
def namesAux : Nat → List Char → List (List Char)
  | 0, _ => []
  | _ + 1, [] => []
  | fuel + 1, c :: cs =>
    if isAlpha c then
      match (c :: cs).dropWhile isAlpha with
      | ':' :: cs2 =>
        if cs2 = [] then []
        else
          match cs2.dropWhile isPySpace with
          | [] => [(c :: cs).takeWhile isAlpha]
          | t :: ts => (c :: cs).takeWhile isAlpha ::
              namesAux fuel ((t :: ts).drop (findE (t :: ts)))
      | _ => namesAux fuel ((c :: cs).dropWhile isAlpha)
    else
      namesAux fuel cs

/-- Group-1 names of the first (speaker-discovery) pass over a transcript. -/
def pass1Names (s : List Char) : List (List Char) := namesAux s.length s

/-- First-seen deduplication (the element collection of a Python set). -/
def fsAux (seen : List (List Char)) : List (List Char) → List (List Char)
  | [] => []
  | n :: ns => if n ∈ seen then fsAux seen ns else n :: fsAux (n :: seen) ns

def firstSeenDedup (l : List (List Char)) : List (List Char) := fsAux [] l

/-- The distinct elements of `set(turn[0].strip() for ...)` of the source,
listed in first-seen order.  Python's `list(set(...))` enumerates these same
elements in an unspecified order; that order is modelled by an explicit
enumeration function applied to this list. -/
def speakersSetList (s : List Char) : List (List Char) :=
  firstSeenDedup ((pass1Names s).map pyStrip)

/-- In chars after a '[': index of the first ']' not preceded by a newline
(the pattern `\[(.*?)\]` without re.DOTALL cannot cross a newline). -/
def closeScan : List Char → Option Nat
  | [] => none
  | c :: cs =>
    if c == ']' then some 0
    else if c == '\n' then none
    else (closeScan cs).map (fun n => n + 1)

/-- The non-overlapping scan of re.finditer over `\[(.*?)\]`, recording
(match start, full matched text including brackets) as the source does. -/
def cuesAux : Nat → List Char → Nat → List (Nat × List Char)
  | 0, _, _ => []
  | _ + 1, [], _ => []
  | fuel + 1, c :: cs, i =>
    if c == '[' then
      match closeScan cs with
      | some j => (i, '[' :: (cs.take j ++ [']'])) :: cuesAux fuel (cs.drop (j + 1)) (i + j + 2)
      | none => cuesAux fuel cs (i + 1)
    else
      cuesAux fuel cs (i + 1)

/-- All bracketed sound cues of a transcript with their positions. -/
def extractCues (s : List Char) : List (Nat × List Char) := cuesAux s.length s 0

/-- A timeline element: the source stores turns as tuples and cues as the raw
matched string, dispatching on isinstance. -/
inductive Event where
  | turn (speaker text : List Char)
  | cue (raw : List Char)
deriving DecidableEq, Repr

/-- Insert keeping earlier-or-equal keys in front (stable insertion). -/
def insertByPos (x : Nat × Event) : List (Nat × Event) → List (Nat × Event)
  | [] => [x]
  | y :: ys => if y.1 ≤ x.1 then y :: insertByPos x ys else x :: y :: ys

/-- Sort by source position, as `all_elements.sort(key=lambda x: x[0])`.
All positions are distinct in practice (cue positions are at '[' characters,
turn positions at letters), so any stable comparison sort agrees with this. -/
def sortByPos : List (Nat × Event) → List (Nat × Event)
  | [] => []
  | x :: xs => insertByPos x (sortByPos xs)

/-- The merged, position-sorted timeline: cue elements first, then turn
elements, then the sort (mirroring `cue_positions + turn_positions`). -/
def events (s : List Char) : List (Nat × Event) :=
  sortByPos
    ((extractCues s).map (fun p => (p.1, Event.cue p.2)) ++
      (extractTurns s).map (fun t => (t.pos, Event.turn t.speaker t.text)))

/-- A gTTS voice parameterisation (language variant and top-level domain). -/
structure Voice where
  lang : String
  tld : String
deriving DecidableEq, Repr

/-- The fixed cycle of four voice profiles of the source. -/
def voiceOptions : List Voice :=
  [⟨"en-us", "com"⟩, ⟨"en-gb", "co.uk"⟩, ⟨"en-au", "com.au"⟩, ⟨"en-ca", "ca"⟩]

/-- voice_options[i % len(voice_options)] of the source. -/
def voiceOpt (i : Nat) : Voice :=
  voiceOptions.getD (i % voiceOptions.length) ⟨"", ""⟩

/-- The enumerate loop assigning voices to the speakers list in its order. -/
def assignFrom (i : Nat) : List (List Char) → List (List Char × Voice)
  | [] => []
  | sp :: rest => (sp, voiceOpt i) :: assignFrom (i + 1) rest

/-- speaker_voices: the dictionary built from the enumerated speakers list. -/
def speakerVoices (spks : List (List Char)) : List (List Char × Voice) :=
  assignFrom 0 spks

/-- Dictionary lookup speaker_voices[speaker]; none models the KeyError. -/
def findVoice (m : List (List Char × Voice)) (sp : List Char) : Option Voice :=
  (m.find? (fun p => decide (p.1 = sp))).map Prod.snd

/-- Audio clips as a term algebra over the mixing capabilities used by the
source: sine tones with gain, silences, gTTS speech, concatenation, fades. -/
inductive Clip where
  | tone (freqHz durMs : Nat) (gainDb : Int)
  | silent (durMs : Nat)
  | speech (lang tld : String) (slow : Bool) (text : List Char)
  | cat (a b : Clip)
  | fadeIn (c : Clip) (ms : Nat)
  | fadeOut (c : Clip) (ms : Nat)
deriving DecidableEq, Repr

/-- pydub len(segment) in milliseconds.  Fades and gain preserve duration;
speech duration is external and never consulted by the source's music
generation, so it is given as 0 here. -/
def clipLen : Clip → Nat
  | .tone _ d _ => d
  | .silent d => d
  | .speech _ _ _ _ => 0
  | .cat a b => clipLen a + clipLen b
  | .fadeIn c _ => clipLen c
  | .fadeOut c _ => clipLen c

/-- pydub segment * n: n-fold repetition by concatenation (n ≥ 1 in the source). -/
def repClip (c : Clip) : Nat → Clip
  | 0 => .silent 0
  | 1 => c
  | n + 2 => .cat (repClip c (n + 1)) c

/-- One 500 ms sine tone at -3 dB, as in generate_music. -/
def toneSeg (f : Nat) : Clip := .tone f 500 (-3)

/-- The intro jingle: A4 B4 C5 C5 B4 A4 (left-associated concatenation). -/
def introJingle : Clip :=
  .cat (.cat (.cat (.cat (.cat (toneSeg 440) (toneSeg 494)) (toneSeg 523))
    (toneSeg 523)) (toneSeg 494)) (toneSeg 440)

/-- The outro jingle: C5 B4 A4 A4 B4 C5. -/
def outroJingle : Clip :=
  .cat (.cat (.cat (.cat (.cat (toneSeg 523) (toneSeg 494)) (toneSeg 440))
    (toneSeg 440)) (toneSeg 494)) (toneSeg 523)

/-- generate_music of the source: jingles repeated duration_ms // len(jingle) + 1
times for intro/outro, a single G4 tone at -10 dB otherwise. -/
def generate_music (durationMs : Nat) (musicType : String) : Clip :=
  if musicType = "intro" then repClip introJingle (durationMs / clipLen introJingle + 1)
  else if musicType = "outro" then repClip outroJingle (durationMs / clipLen outroJingle + 1)
  else .tone 392 durationMs (-10)

/-- The unconditional intro clip: 5 s of intro music with fade-in then fade-out. -/
def introClip : Clip := .fadeOut (.fadeIn (generate_music 5000 ("intro")) 1000) 2000

/-- Warnings surfaced via st.warning in the per-event exception handlers. -/
inductive Warning where
  | skippedTurn (text : List Char)
  | skippedAll
deriving DecidableEq, Repr

/-- A synthesis oracle: whether the gTTS call for this text and voice succeeds.
The clip produced on success is determined by the gTTS arguments. -/
def SynthOk : Type := List Char → Voice → Bool

/-- The always-succeeding synthesis oracle. -/
def okAll : SynthOk := fun _ _ => true

/-- The always-failing synthesis oracle. -/
def okNone : SynthOk := fun _ _ => false

/-- cue_text = element.strip("[]").lower() of the source. -/
def cueText (raw : List Char) : List Char := (stripBrk raw).map Char.toLower

def musicPat : List Char := ("music").toList
def fadePat : List Char := ("fade").toList
def inPat : List Char := ("in").toList
def outPat : List Char := ("out").toList
def allPat : List Char := ("all:").toList

/-- The clips and warnings contributed by one timeline element
(the loop body at lines 102-159 of src/app.py).  A dialogue turn's voice
lookup and synthesis run inside one try block: a KeyError on the lookup and a
synthesis failure both fall to the same fallback-silence handler. -/
def renderEvent (voices : List (List Char × Voice)) (ok : SynthOk) :
    Event → List Clip × List Warning
  | .turn sp txt =>
    match findVoice voices sp with
    | some v =>
      if ok txt v then ([.speech v.lang v.tld false txt, .silent 300], [])
      else ([.silent 1000], [.skippedTurn txt])
    | none => ([.silent 1000], [.skippedTurn txt])
  | .cue raw =>
    let ct := cueText raw
    if hasSub musicPat ct && hasSub fadePat ct then
      if hasSub inPat ct then ([.fadeIn (generate_music 3000 ("background")) 1500], [])
      else if hasSub outPat ct then ([.fadeOut (generate_music 3000 ("outro")) 2000], [])
      else ([], [])
    else if hasSub allPat (ct.map Char.toLower) then
      let t := pyStrip (afterFirstColon ct)
      let v := voiceOptions.getD 0 ⟨"", ""⟩
      if ok t v then ([.speech v.lang v.tld false t], [])
      else ([.silent 1000], [.skippedAll])
    else ([], [])

/-- Clips and warnings of a list of elements, concatenated in order. -/
def renderEvents (voices : List (List Char × Voice)) (ok : SynthOk) :
    List Event → List Clip × List Warning
  | [] => ([], [])
  | e :: es =>
    let r := renderEvent voices ok e
    let rest := renderEvents voices ok es
    (r.1 ++ rest.1, r.2 ++ rest.2)

/-- The source's imperative loop: segments and warnings accumulate in order. -/
def renderLoop (voices : List (List Char × Voice)) (ok : SynthOk)
    (acc : List Clip × List Warning) : List Event → List Clip × List Warning
  | [] => acc
  | e :: es =>
    let r := renderEvent voices ok e
    renderLoop voices ok (acc.1 ++ r.1, acc.2 ++ r.2) es

/-- The whole pipeline up to (but excluding) the final concatenation and
mp3 export: the segments list, starting from the unconditional intro clip,
plus the recorded warnings.  `enum` models the unspecified enumeration order
of Python's `list(set(...))` over the discovered speakers. -/
def podcastSegs (enum : List (List Char) → List (List Char)) (ok : SynthOk)
    (s : List Char) : List Clip × List Warning :=
  let voices := speakerVoices (enum (speakersSetList s))
  renderLoop voices ok ([introClip], []) ((events s).map Prod.snd)

/-- transcript_to_podcast: if any segments exist they are concatenated
(left fold of pydub +) and exported; otherwise the source reports
"No audio segments were created." and returns None, modelled as none. -/
def transcript_to_podcast (enum : List (List Char) → List (List Char))
    (ok : SynthOk) (s : List Char) : Option Clip :=
  match (podcastSegs enum ok s).1 with
  | [] => none
  | c :: cs => some (cs.foldl Clip.cat c)

/- ------------------------------------------------------------------ -/
/- Helper lemmas                                                      -/
/- ------------------------------------------------------------------ -/

lemma drop_tw_append (p : Char → Bool) : ∀ (l : List Char) (n : Nat),
    l.drop ((l.takeWhile p).length + n) = (l.dropWhile p).drop n := by
  intro l
  induction l with
  | nil => intro n; simp
  | cons c cs IH =>
    intro n
    by_cases hc : p c
    · rw [List.takeWhile_cons_of_pos hc, List.dropWhile_cons_of_pos hc, List.length_cons,
        show (cs.takeWhile p).length + 1 + n = ((cs.takeWhile p).length + n) + 1 from by omega,
        List.drop_succ_cons]
      exact IH n
    · rw [List.takeWhile_cons_of_neg hc, List.dropWhile_cons_of_neg hc]
      simp

lemma take_tw (p : Char → Bool) : ∀ l : List Char,
    l.take ((l.takeWhile p).length) = l.takeWhile p := by
  intro l
  induction l with
  | nil => simp
  | cons c cs IH =>
    by_cases hc : p c
    · rw [List.takeWhile_cons_of_pos hc, List.length_cons, List.take_succ_cons, IH]
    · rw [List.takeWhile_cons_of_neg hc]
      simp

lemma drop_past_colon (c : Char) (cs cs2 : List Char)
    (heq : (c :: cs).dropWhile isAlpha = ':' :: cs2) (n : Nat) :
    (c :: cs).drop (((c :: cs).takeWhile isAlpha).length + (1 + n)) = cs2.drop n := by
  rw [drop_tw_append isAlpha (c :: cs) (1 + n), heq, Nat.add_comm 1 n, List.drop_succ_cons]

/-- Every turn produced by the scanner sits at its recorded offset: at
position pos (relative to the list handed to the scanner, offset by the
running index i) there is a maximal nonempty alphabetic run equal to the
speaker, immediately followed by a colon, and the turn text is the trimmed
forward span computed from the characters after that colon. -/
theorem turnsAux_shape : ∀ (fuel : Nat) (u : List Char) (i : Nat) (t : Turn),
    t ∈ turnsAux fuel u i →
    ∃ d, t.pos = i + d ∧
      t.speaker = (u.drop d).takeWhile isAlpha ∧
      t.speaker ≠ [] ∧
      ((u.drop d).dropWhile isAlpha).head? = some ':' ∧
      t.text = turnText (((u.drop d).dropWhile isAlpha).tail) ∧
      t.text ≠ [] := by
  intro fuel
  induction fuel with
  | zero => intro u i t h; simp [turnsAux] at h
  | succ fuel IH =>
    intro u i t h
    cases u with
    | nil => simp [turnsAux] at h
    | cons c cs =>
      simp only [turnsAux] at h
      split at h
      next hc =>
        split at h
        next cs2 heq =>
          split at h
          next htext =>
            obtain ⟨d', hpos, hspk, hne, hcol, htxt, htne⟩ :=
              IH (cs2.dropWhile isPySpace)
                (i + ((c :: cs).takeWhile isAlpha).length + 1 +
                  (cs2.takeWhile isPySpace).length) t h
            refine ⟨((c :: cs).takeWhile isAlpha).length +
              (1 + ((cs2.takeWhile isPySpace).length + d')), by omega, ?_⟩
            rw [drop_past_colon c cs cs2 heq, drop_tw_append isPySpace cs2 d']
            exact ⟨hspk, hne, hcol, htxt, htne⟩
          next htext =>
            rcases List.mem_cons.mp h with rfl | hmem
            · refine ⟨0, by simp, ?_⟩
              rw [List.drop_zero, heq]
              refine ⟨rfl, ?_, rfl, rfl, htext⟩
              rw [List.takeWhile_cons_of_pos hc]
              simp
            · obtain ⟨d', hpos, hspk, hne, hcol, htxt, htne⟩ :=
                IH (cs2.dropWhile isPySpace)
                  (i + ((c :: cs).takeWhile isAlpha).length + 1 +
                    (cs2.takeWhile isPySpace).length) t hmem
              refine ⟨((c :: cs).takeWhile isAlpha).length +
                (1 + ((cs2.takeWhile isPySpace).length + d')), by omega, ?_⟩
              rw [drop_past_colon c cs cs2 heq, drop_tw_append isPySpace cs2 d']
              exact ⟨hspk, hne, hcol, htxt, htne⟩
        next hne2 =>
          obtain ⟨d', hpos, hspk, hne, hcol, htxt, htne⟩ :=
            IH ((c :: cs).dropWhile isAlpha) (i + ((c :: cs).takeWhile isAlpha).length) t h
          refine ⟨((c :: cs).takeWhile isAlpha).length + d', by omega, ?_⟩
          rw [drop_tw_append isAlpha (c :: cs) d']
          exact ⟨hspk, hne, hcol, htxt, htne⟩
      next hc =>
        obtain ⟨d', hpos, hspk, hne, hcol, htxt, htne⟩ := IH cs (i + 1) t h
        refine ⟨1 + d', by omega, ?_⟩
        rw [Nat.add_comm 1 d', List.drop_succ_cons]
        exact ⟨hspk, hne, hcol, htxt, htne⟩

lemma turnEnd_eq_spec (tail : List Char) : turnEnd tail = specTurnEnd tail := by
  unfold turnEnd specTurnEnd
  rcases h1 : searchIdx matchNLHere tail with _ | d1 <;>
    rcases h2 : searchIdx lbHere tail with _ | d2 <;>
    simp [h1, h2, Nat.min_def] <;>
    first
    | omega
    | (split_ifs <;> omega)

/- ------------------------------------------------------------------ -/
/- Claim theorems                                                     -/
/- ------------------------------------------------------------------ -/

/-- C1 counterexample: the source's speaker regex is not anchored at line
starts.  In the transcript "A: time: 5" the mid-line substring "time:"
(preceded by a space, not a newline) introduces a second DialogueTurn, so a
mid-line Word: token does introduce a turn, contrary to the claim. -/
theorem C1_counterexample :
    extractTurns (("A: time: 5").toList) =
      [⟨0, ("A").toList, ("time: 5").toList⟩, ⟨3, ("time").toList, ("5").toList⟩] ∧
    ((("A: time: 5").toList.drop 2).head? = some ' ') := by decide

/-- C1 (amended): a DialogueTurn is introduced by any token matching
[A-Za-z]+: that the non-overlapping scan reaches — at the turn's recorded
position the speaker is a nonempty alphabetic run written in the transcript
and immediately followed by a colon — but the token need not sit at the
start of a line. -/
theorem C1_amended_token : ∀ (s : List Char), ∀ t ∈ extractTurns s,
    t.speaker ≠ [] ∧ (∀ c ∈ t.speaker, isAlpha c) ∧
    (s.drop t.pos).take t.speaker.length = t.speaker ∧
    (s.drop (t.pos + t.speaker.length)).head? = some ':' := by
  intro s t ht
  obtain ⟨d, hpos, hspk, hne, hcol, _, _⟩ := turnsAux_shape s.length s 0 t ht
  have hd : d = t.pos := by omega
  subst hd
  refine ⟨hne, ?_, ?_, ?_⟩
  · intro ch hch
    rw [hspk] at hch
    exact List.mem_takeWhile_imp hch
  · rw [hspk, take_tw]
  · rw [hspk, ← List.drop_drop]
    have h0 := drop_tw_append isAlpha (s.drop t.pos) 0
    rw [Nat.add_zero] at h0
    rw [h0, List.drop_zero]
    exact hcol

/-- C1 witness: the amended theorem applied to the mid-line turn of
"A: time: 5". -/
theorem C1_amended_witness :
    (⟨3, ("time").toList, ("5").toList⟩ : Turn) ∈ extractTurns (("A: time: 5").toList) ∧
    (("time").toList ≠ [] ∧ (∀ c ∈ ("time").toList, isAlpha c) ∧
      ((("A: time: 5").toList.drop 3).take ("time").toList.length = ("time").toList) ∧
      ((("A: time: 5").toList.drop (3 + ("time").toList.length)).head? = some ':')) :=
  ⟨by decide, C1_amended_token (("A: time: 5").toList)
    (⟨3, ("time").toList, ("5").toList⟩ : Turn) (by decide)⟩

/-- C2 (confirmed): every emitted DialogueTurn's text equals the trimmed
span that starts immediately after the colon and any following whitespace
and ends at the earliest of (a) the next newline immediately followed by
another Speaker: token, (b) the next '[', (c) end of text; and it is
nonempty. -/
theorem C2_span : ∀ (s : List Char), ∀ t ∈ extractTurns s,
    t.text = pyStrip
      (((((s.drop t.pos).dropWhile isAlpha).tail).dropWhile isPySpace).take
        (specTurnEnd ((((s.drop t.pos).dropWhile isAlpha).tail).dropWhile isPySpace))) ∧
    t.text ≠ [] := by
  intro s t ht
  obtain ⟨d, hpos, _, _, _, htxt, htne⟩ := turnsAux_shape s.length s 0 t ht
  have hd : d = t.pos := by omega
  subst hd
  refine ⟨?_, htne⟩
  rw [htxt]
  simp only [turnText]
  rw [turnEnd_eq_spec]

/-- C2 witness: the span rule evaluated on the turn of speaker B in
"A: hello\nB: world". -/
theorem C2_span_witness :
    (⟨9, ("B").toList, ("world").toList⟩ : Turn) ∈
      extractTurns (("A: hello\nB: world").toList) ∧
    (("world").toList = pyStrip
      ((((((("A: hello\nB: world").toList.drop 9).dropWhile isAlpha).tail).dropWhile
          isPySpace)).take
        (specTurnEnd ((((((("A: hello\nB: world").toList.drop 9).dropWhile
          isAlpha).tail).dropWhile isPySpace))))) ∧
      ("world").toList ≠ []) :=
  ⟨by decide, C2_span (("A: hello\nB: world").toList)
    (⟨9, ("B").toList, ("world").toList⟩ : Turn) (by decide)⟩

lemma alpha_not_space {c : Char} (h : isAlpha c = true) : isPySpace c = false := by
  by_contra hc
  rw [Bool.not_eq_false] at hc
  simp only [isPySpace, Bool.or_eq_true, beq_iff_eq] at hc
  rcases hc with ((((h1 | h1) | h1) | h1) | h1) | h1 <;> subst h1 <;>
    exact absurd h (by decide)

lemma dropWhile_space_of_alpha (l : List Char) (h : ∀ c ∈ l, isAlpha c) :
    l.dropWhile isPySpace = l := by
  cases l with
  | nil => rfl
  | cons c cs =>
    rw [List.dropWhile_cons_of_neg]
    rw [alpha_not_space (h c (List.mem_cons_self c cs))]
    simp

lemma pyStrip_alpha (l : List Char) (h : ∀ c ∈ l, isAlpha c) : pyStrip l = l := by
  unfold pyStrip
  rw [dropWhile_space_of_alpha l h,
    dropWhile_space_of_alpha l.reverse (by intro c hc; exact h c (List.mem_reverse.mp hc)),
    List.reverse_reverse]

/-- Every group-1 name of the first pass is a nonempty alphabetic token. -/
lemma namesAux_alpha : ∀ (fuel : Nat) (u : List Char) (n : List Char),
    n ∈ namesAux fuel u → n ≠ [] ∧ ∀ c ∈ n, isAlpha c := by
  intro fuel
  induction fuel with
  | zero => intro u n h; simp [namesAux] at h
  | succ fuel IH =>
    intro u n h
    cases u with
    | nil => simp [namesAux] at h
    | cons c cs =>
      simp only [namesAux] at h
      split at h
      next hc =>
        split at h
        next cs2 heq =>
          split at h
          next => simp at h
          next hcs2 =>
            split at h
            next htl =>
              rcases List.mem_singleton.mp h with rfl
              constructor
              · rw [List.takeWhile_cons_of_pos hc]; simp
              · intro ch hch; exact List.mem_takeWhile_imp hch
            next t ts htl =>
              rcases List.mem_cons.mp h with rfl | hmem
              · constructor
                · rw [List.takeWhile_cons_of_pos hc]; simp
                · intro ch hch; exact List.mem_takeWhile_imp hch
              · exact IH _ n hmem
        next =>
          exact IH _ n h
      next hc =>
        exact IH _ n h

lemma mem_fsAux (n : List Char) : ∀ (l seen : List (List Char)),
    n ∈ fsAux seen l ↔ (n ∈ l ∧ n ∉ seen) := by
  intro l
  induction l with
  | nil => intro seen; simp [fsAux]
  | cons x xs IH =>
    intro seen
    by_cases hx : x ∈ seen
    · rw [show fsAux seen (x :: xs) = fsAux seen xs from by simp [fsAux, hx], IH]
      constructor
      · rintro ⟨h1, h2⟩
        exact ⟨List.mem_cons_of_mem _ h1, h2⟩
      · rintro ⟨h1, h2⟩
        refine ⟨?_, h2⟩
        rcases List.mem_cons.mp h1 with rfl | h1
        · exact absurd hx h2
        · exact h1
    · rw [show fsAux seen (x :: xs) = x :: fsAux (x :: seen) xs from by simp [fsAux, hx]]
      constructor
      · intro hmem
        rcases List.mem_cons.mp hmem with rfl | h1
        · exact ⟨List.mem_cons_self n xs, hx⟩
        · rw [IH] at h1
          refine ⟨List.mem_cons_of_mem _ h1.1, ?_⟩
          intro hn
          exact h1.2 (List.mem_cons_of_mem _ hn)
      · rintro ⟨h1, h2⟩
        rcases List.mem_cons.mp h1 with rfl | h1
        · exact List.mem_cons_self n _
        · by_cases hnx : n = x
          · subst hnx; exact List.mem_cons_self n _
          · apply List.mem_cons_of_mem
            rw [IH]
            refine ⟨h1, ?_⟩
            intro hn
            rcases List.mem_cons.mp hn with h3 | h3
            · exact hnx h3
            · exact h2 h3

lemma nodup_fsAux : ∀ (l seen : List (List Char)), (fsAux seen l).Nodup := by
  intro l
  induction l with
  | nil => intro seen; simp [fsAux]
  | cons x xs IH =>
    intro seen
    by_cases hx : x ∈ seen
    · rw [show fsAux seen (x :: xs) = fsAux seen xs from by simp [fsAux, hx]]
      exact IH seen
    · rw [show fsAux seen (x :: xs) = x :: fsAux (x :: seen) xs from by simp [fsAux, hx]]
      refine List.nodup_cons.mpr ⟨?_, IH _⟩
      rw [mem_fsAux]
      rintro ⟨_, h2⟩
      exact h2 (List.mem_cons_self x seen)

/-- C6 counterexample: in "A: x B: y" the first pass consumes the whole
text "x B: y" as A's group, so "B" never reaches the Speakers set, yet the
second pass emits a DialogueTurn for B.  The set of emitted-turn speakers is
therefore not the Speakers set. -/
theorem C6_counterexample :
    speakersSetList (("A: x B: y").toList) = [("A").toList] ∧
    (extractTurns (("A: x B: y").toList)).map Turn.speaker =
      [("A").toList, ("B").toList] ∧
    ¬ (("B").toList ∈ speakersSetList (("A: x B: y").toList)) := by decide

/-- C6 (amended): the discovered Speakers set is exactly the set of group-1
names of the first (text-consuming) regex pass, deduplicated by exact
case-sensitive match; it is duplicate-free.  (It need not coincide with the
speakers of the emitted DialogueTurns, in either direction.) -/
theorem C6_speakers_set : ∀ (s : List Char) (n : List Char),
    (n ∈ speakersSetList s ↔ n ∈ pass1Names s) ∧ (speakersSetList s).Nodup := by
  intro s n
  constructor
  · unfold speakersSetList firstSeenDedup
    rw [mem_fsAux]
    simp only [List.mem_map]
    constructor
    · rintro ⟨⟨m, hm, rfl⟩, _⟩
      have hprop := namesAux_alpha s.length s m hm
      rwa [pyStrip_alpha _ hprop.2]
    · intro hn
      have hprop := namesAux_alpha s.length s n hn
      exact ⟨⟨n, hn, pyStrip_alpha _ hprop.2⟩, by simp⟩
  · exact nodup_fsAux _ _

lemma findVoice_assignFrom : ∀ (e : List (List Char)) (k i : Nat) (hn : e.Nodup)
    (hi : i < e.length),
    findVoice (assignFrom k e) (e.get ⟨i, hi⟩) = some (voiceOpt (k + i)) := by
  intro e
  induction e with
  | nil => intro k i hn hi; simp at hi
  | cons sp rest IH =>
    intro k i hn hi
    cases i with
    | zero =>
      show findVoice ((sp, voiceOpt k) :: assignFrom (k + 1) rest) sp = _
      unfold findVoice
      rw [List.find?_cons_of_pos _ (by simp)]
      simp
    | succ j =>
      have hj : j < rest.length := by simpa using hi
      have hmem : rest.get ⟨j, hj⟩ ∈ rest := List.get_mem rest j hj
      have hne : ¬ (sp = rest.get ⟨j, hj⟩) := by
        intro hEq
        rw [List.nodup_cons] at hn
        exact hn.1 (hEq ▸ hmem)
      show findVoice ((sp, voiceOpt k) :: assignFrom (k + 1) rest) (rest.get ⟨j, hj⟩) = _
      unfold findVoice
      rw [List.find?_cons_of_neg _ (by simpa using hne)]
      rw [show k + (j + 1) = k + 1 + j from by omega]
      exact IH (k + 1) j (List.nodup_cons.mp hn).2 hj

/-- C5 counterexample: Python's list(set(...)) enumerates the discovered
speakers in an unspecified order.  For "A: x\nB: y" the enumeration
["B", "A"] is an admissible set order (duplicate-free, same members as the
discovered set), and under it the first-seen speaker "A" (index 0) receives
profile 1 (en-gb), not profile 0 mod N. -/
theorem C5_counterexample :
    speakersSetList (("A: x\nB: y").toList) = [("A").toList, ("B").toList] ∧
    (([("B").toList, ("A").toList] : List (List Char)).Nodup ∧
      (∀ n ∈ ([("B").toList, ("A").toList] : List (List Char)),
        n ∈ speakersSetList (("A: x\nB: y").toList)) ∧
      (∀ n ∈ speakersSetList (("A: x\nB: y").toList),
        n ∈ ([("B").toList, ("A").toList] : List (List Char)))) ∧
    findVoice (speakerVoices [("B").toList, ("A").toList]) (("A").toList) =
      some ⟨"en-gb", "co.uk"⟩ ∧
    ¬ (findVoice (speakerVoices [("B").toList, ("A").toList]) (("A").toList) =
      some (voiceOpt 0)) := by decide

/-- C5 (amended): with the cycle of 4 profiles, the speaker at index i of the
enumerated (duplicate-free) speakers list — the order actually produced by
list(set(...)), which need not be first-seen order — is assigned profile
index i mod 4. -/
theorem C5_round_robin : ∀ (e : List (List Char)) (i : Nat) (hn : e.Nodup)
    (hi : i < e.length),
    findVoice (speakerVoices e) (e.get ⟨i, hi⟩) = some (voiceOpt i) ∧
    voiceOpt i = voiceOptions.getD (i % 4) ⟨"", ""⟩ := by
  intro e i hn hi
  constructor
  · have := findVoice_assignFrom e 0 i hn hi
    rwa [Nat.zero_add] at this
  · rfl

/-- C5 witness: the second of two speakers gets profile 1 mod 4. -/
theorem C5_round_robin_witness :
    findVoice (speakerVoices [("A").toList, ("B").toList]) (("B").toList) =
      some (voiceOpt 1) ∧
    voiceOpt 1 = voiceOptions.getD (1 % 4) ⟨"", ""⟩ := by
  have h := C5_round_robin [("A").toList, ("B").toList] 1 (by decide) (by decide)
  simpa using h

/-- C10 counterexample: the two extraction passes disagree.  In "A: x B: y"
the second pass emits a turn for speaker "B", but "B" is not in the
discovered Speakers set (the first pass consumed it inside A's text group),
so the voice lookup for that turn fails (KeyError). -/
theorem C10_counterexample :
    (⟨5, ("B").toList, ("y").toList⟩ : Turn) ∈ extractTurns (("A: x B: y").toList) ∧
    ¬ (("B").toList ∈ speakersSetList (("A: x B: y").toList)) ∧
    findVoice (speakerVoices (speakersSetList (("A: x B: y").toList))) (("B").toList) =
      none := by decide

/-- C10 (amended): a processed DialogueTurn's speaker may be missing from the
voice mapping; the failed dictionary lookup is caught by the per-event
handler, which substitutes the fallback silence clip and records a warning,
so rendering continues. -/
theorem C10_lookup_fallback : ∀ (voices : List (List Char × Voice)) (ok : SynthOk)
    (sp txt : List Char), findVoice voices sp = none →
    renderEvent voices ok (.turn sp txt) = ([.silent 1000], [.skippedTurn txt]) := by
  intro voices ok sp txt h
  simp [renderEvent, h]

/-- C10 witness: the fallback at a concrete failed lookup. -/
theorem C10_lookup_witness :
    renderEvent [] okAll (.turn (("B").toList) (("y").toList)) =
      ([.silent 1000], [.skippedTurn (("y").toList)]) :=
  C10_lookup_fallback [] okAll (("B").toList) (("y").toList) (by decide)

lemma renderLoop_eq : ∀ (voices : List (List Char × Voice)) (ok : SynthOk)
    (es : List Event) (acc : List Clip × List Warning),
    renderLoop voices ok acc es =
      (acc.1 ++ (renderEvents voices ok es).1, acc.2 ++ (renderEvents voices ok es).2) := by
  intro voices ok es
  induction es with
  | nil => intro acc; simp [renderLoop, renderEvents]
  | cons e es IH =>
    intro acc
    simp only [renderLoop, renderEvents, IH]
    simp [List.append_assoc]

lemma renderEvents_append_turn : ∀ (voices : List (List Char × Voice)) (ok : SynthOk)
    (es1 es2 : List Event) (sp txt : List Char) (v : Voice),
    findVoice voices sp = some v → ok txt v = false →
    renderEvents voices ok (es1 ++ Event.turn sp txt :: es2) =
      ((renderEvents voices ok es1).1 ++
        Clip.silent 1000 :: (renderEvents voices ok es2).1,
       (renderEvents voices ok es1).2 ++
        Warning.skippedTurn txt :: (renderEvents voices ok es2).2) := by
  intro voices ok es1 es2 sp txt v hv hok
  induction es1 with
  | nil =>
    simp [renderEvents, renderEvent, hv, hok]
  | cons e es IH =>
    simp only [List.cons_append, renderEvents, List.append_eq]
    rw [IH]
    simp [List.append_assoc]

lemma mem_insertByPos : ∀ (l : List (Nat × Event)) (x y : Nat × Event),
    y ∈ insertByPos x l ↔ y = x ∨ y ∈ l := by
  intro l x
  induction l with
  | nil => intro y; simp [insertByPos]
  | cons z zs IH =>
    intro y
    simp only [insertByPos]
    split <;> simp only [List.mem_cons, IH] <;> try tauto

lemma pairwise_insertByPos : ∀ (l : List (Nat × Event)) (x : Nat × Event),
    List.Pairwise (fun a b => a.1 ≤ b.1) l →
    List.Pairwise (fun a b => a.1 ≤ b.1) (insertByPos x l) := by
  intro l x
  induction l with
  | nil => intro _; simp [insertByPos]
  | cons z zs IH =>
    intro h
    rw [List.pairwise_cons] at h
    simp only [insertByPos]
    split
    next hz =>
      rw [List.pairwise_cons]
      refine ⟨?_, IH h.2⟩
      intro y hy
      rcases (mem_insertByPos zs x y).mp hy with rfl | hy
      · exact hz
      · exact h.1 y hy
    next hz =>
      rw [List.pairwise_cons]
      refine ⟨?_, List.pairwise_cons.mpr h⟩
      intro y hy
      rcases List.mem_cons.mp hy with rfl | hy
      · omega
      · have := h.1 y hy
        omega

lemma sortByPos_sorted : ∀ (l : List (Nat × Event)),
    List.Pairwise (fun a b => a.1 ≤ b.1) (sortByPos l) := by
  intro l
  induction l with
  | nil => simp [sortByPos]
  | cons x xs IH => exact pairwise_insertByPos _ _ IH

/-- C3 counterexample: in the source, the 300 ms pause is appended inside
the try block, after the successful synthesis; the exception handler appends
only the 1000 ms fallback silence.  A failed turn therefore contributes one
clip, not a fallback clip plus a trailing pause as the claim states. -/
theorem C3_counterexample :
    podcastSegs id okNone (("X: hi").toList) =
      ([introClip, .silent 1000], [.skippedTurn (("hi").toList)]) ∧
    ¬ ((podcastSegs id okNone (("X: hi").toList)).1 =
      [introClip, .silent 1000, .silent 300]) := by decide

/-- C3 (amended): a synthesis failure on one DialogueTurn does not abort the
run: the failed turn contributes exactly one fallback-silence clip (1000 ms,
with no trailing pause), a warning is recorded, and the remaining events are
rendered exactly as they would be otherwise. -/
theorem C3_failure_isolated : ∀ (enum : List (List Char) → List (List Char))
    (ok : SynthOk) (s : List Char) (es1 es2 : List Event) (sp txt : List Char)
    (v : Voice),
    (events s).map Prod.snd = es1 ++ Event.turn sp txt :: es2 →
    findVoice (speakerVoices (enum (speakersSetList s))) sp = some v →
    ok txt v = false →
    (podcastSegs enum ok s).1 =
      introClip ::
        ((renderEvents (speakerVoices (enum (speakersSetList s))) ok es1).1 ++
          Clip.silent 1000 ::
            (renderEvents (speakerVoices (enum (speakersSetList s))) ok es2).1) ∧
    (podcastSegs enum ok s).2 =
      (renderEvents (speakerVoices (enum (speakersSetList s))) ok es1).2 ++
        Warning.skippedTurn txt ::
          (renderEvents (speakerVoices (enum (speakersSetList s))) ok es2).2 := by
  intro enum ok s es1 es2 sp txt v hev hv hok
  have hsplit := renderEvents_append_turn
    (speakerVoices (enum (speakersSetList s))) ok es1 es2 sp txt v hv hok
  unfold podcastSegs
  rw [renderLoop_eq, hev, hsplit]
  constructor <;> simp

/-- C3 witness: the failure path evaluated on "X: hi" with a failing
synthesis oracle. -/
theorem C3_failure_witness :
    (podcastSegs id okNone (("X: hi").toList)).1 = [introClip, Clip.silent 1000] ∧
    (podcastSegs id okNone (("X: hi").toList)).2 =
      [Warning.skippedTurn (("hi").toList)] := by
  have h := C3_failure_isolated id okNone (("X: hi").toList) [] []
    (("X").toList) (("hi").toList) ⟨"en-us", "com"⟩ (by decide) (by decide) (by decide)
  constructor
  · rw [h.1]; decide
  · rw [h.2]; decide

/-- C4 counterexample: the intro clip is appended unconditionally before the
event loop, so a transcript with zero events still yields a nonempty segments
list: the pipeline returns the intro-only audio and never reports the
"No audio segments were created." (empty-timeline) condition, contrary to
the claim that no audio bytes are returned. -/
theorem C4_counterexample :
    events ([] : List Char) = [] ∧
    transcript_to_podcast id okAll [] = some introClip ∧
    ¬ (transcript_to_podcast id okAll [] = none) := by decide

/-- C4 (amended): the pipeline never returns the no-audio report (its
empty-segments branch is unreachable since the intro clip is always
appended); for a transcript with zero events it does not crash and returns
audio consisting of the intro clip alone. -/
theorem C4_empty_intro : ∀ (enum : List (List Char) → List (List Char)) (ok : SynthOk)
    (s : List Char),
    ¬ (transcript_to_podcast enum ok s = none) ∧
    (events s = [] →
      podcastSegs enum ok s = ([introClip], []) ∧
      transcript_to_podcast enum ok s = some introClip) := by
  intro enum ok s
  have hsegs : podcastSegs enum ok s =
      (introClip :: (renderEvents (speakerVoices (enum (speakersSetList s))) ok
        ((events s).map Prod.snd)).1,
       (renderEvents (speakerVoices (enum (speakersSetList s))) ok
        ((events s).map Prod.snd)).2) := by
    unfold podcastSegs
    rw [renderLoop_eq]
    simp
  constructor
  · intro hnone
    unfold transcript_to_podcast at hnone
    rw [hsegs] at hnone
    simp at hnone
  · intro hempty
    have h2 : podcastSegs enum ok s = ([introClip], []) := by
      rw [hsegs, hempty]
      simp [renderEvents]
    refine ⟨h2, ?_⟩
    unfold transcript_to_podcast
    rw [h2]
    rfl

/-- C4 witness: the empty transcript. -/
theorem C4_empty_witness :
    podcastSegs id okAll [] = ([introClip], []) ∧
    transcript_to_podcast id okAll [] = some introClip :=
  (C4_empty_intro id okAll []).2 (by decide)

/-- C7 (confirmed): a cue whose case-folded text contains both "music" and
"fade" yields the background tone with fade-in if it contains "in", the
outro tone with fade-out if it contains "out" but not "in", and nothing if
it contains neither; a cue matching neither the music+fade patterns nor
"all:" contributes nothing and raises no error. -/
theorem C7_cue_classify : ∀ (voices : List (List Char × Voice)) (ok : SynthOk)
    (raw : List Char),
    ((hasSub musicPat (cueText raw) && hasSub fadePat (cueText raw)) = true →
      ((hasSub inPat (cueText raw) = true →
        renderEvent voices ok (.cue raw) =
          ([.fadeIn (generate_music 3000 ("background")) 1500], [])) ∧
       (hasSub inPat (cueText raw) = false → hasSub outPat (cueText raw) = true →
        renderEvent voices ok (.cue raw) =
          ([.fadeOut (generate_music 3000 ("outro")) 2000], [])) ∧
       (hasSub inPat (cueText raw) = false → hasSub outPat (cueText raw) = false →
        renderEvent voices ok (.cue raw) = ([], [])))) ∧
    ((hasSub musicPat (cueText raw) && hasSub fadePat (cueText raw)) = false →
      hasSub allPat ((cueText raw).map Char.toLower) = false →
      renderEvent voices ok (.cue raw) = ([], [])) := by
  intro voices ok raw
  constructor
  · intro hmf
    refine ⟨?_, ?_, ?_⟩
    · intro h1
      simp [renderEvent, hmf, h1]
    · intro h1 h2
      simp [renderEvent, hmf, h1, h2]
    · intro h1 h2
      simp [renderEvent, hmf, h1, h2]
  · intro hmf hall
    simp [renderEvent, hmf, hall]

/-- C7 witness: the cues of the claim evaluated concretely. -/
theorem C7_cue_witness :
    renderEvent [] okAll (.cue (("[INTRO MUSIC FADES IN]").toList)) =
      ([.fadeIn (generate_music 3000 ("background")) 1500], []) :=
  ((C7_cue_classify [] okAll (("[INTRO MUSIC FADES IN]").toList)).1 (by decide)).1
    (by decide)

/-- C8 counterexample: the line "ALL: See you next time!" is not bracketed,
so it never reaches the all:-cue branch; the source parses it as an ordinary
DialogueTurn with speaker "ALL" and renders it through the per-speaker
synthesis path, producing a speech clip plus a 300 ms pause (two clips, not
the single combined clip the claim states). -/
theorem C8_counterexample :
    podcastSegs id okAll (("ALL: See you next time!").toList) =
      ([introClip, .speech ("en-us") ("com") false (("See you next time!").toList),
        .silent 300], []) ∧
    ¬ ((podcastSegs id okAll (("ALL: See you next time!").toList)).1.length = 2) := by
  decide

/-- C8 (amended): only a bracketed cue whose case-folded text contains
"all:" (and does not match music+fade) takes the combined-clip path; for it
the utterance is the trimmed substring after the first colon of the
case-folded text, and exactly one clip is produced regardless of the voice
mapping — a speech clip in the first profile's voice on success, the
fallback silence on failure.  A plain "ALL: ..." line is an ordinary
DialogueTurn with speaker "ALL". -/
theorem C8_all_cue : ∀ (voices : List (List Char × Voice)) (ok : SynthOk)
    (raw : List Char),
    (hasSub musicPat (cueText raw) && hasSub fadePat (cueText raw)) = false →
    hasSub allPat ((cueText raw).map Char.toLower) = true →
    renderEvent voices ok (.cue raw) =
      (if ok (pyStrip (afterFirstColon (cueText raw))) (voiceOptions.getD 0 ⟨"", ""⟩) then
        ([.speech ("en-us") ("com") false (pyStrip (afterFirstColon (cueText raw)))], [])
      else ([.silent 1000], [.skippedAll])) ∧
    (renderEvent voices ok (.cue raw)).1.length = 1 := by
  intro voices ok raw hmf hall
  constructor
  · simp only [renderEvent, hmf, hall]
    simp only [Bool.false_eq_true, if_false, if_true]
    split <;> rfl
  · simp only [renderEvent, hmf, hall]
    simp only [Bool.false_eq_true, if_false, if_true]
    split <;> rfl

/-- C8 witness: the bracketed all:-cue of the sample script. -/
theorem C8_all_cue_witness :
    renderEvent [] okAll (.cue (("[ALL: See you next time!]").toList)) =
      ([.speech ("en-us") ("com") false (("see you next time!").toList)], []) ∧
    (renderEvent [] okAll (.cue (("[ALL: See you next time!]").toList))).1.length = 1 := by
  have h := C8_all_cue [] okAll (("[ALL: See you next time!]").toList)
    (by decide) (by decide)
  refine ⟨?_, h.2⟩
  rw [h.1]
  decide

/-- C9 (confirmed): the rendered output always begins with the intro clip
(5 s intro jingle with fade-in then fade-out), followed by the clips of the
timeline events, which are sorted ascending by source position and rendered
in that order; the transcript of the claim produces exactly the intro,
fade-in background tone, the synthesized "hi" plus pause, and the fade-out
outro tone, in that order. -/
theorem C9_order : ∀ (enum : List (List Char) → List (List Char)) (ok : SynthOk)
    (s : List Char),
    (podcastSegs enum ok s).1 =
      introClip :: (renderEvents (speakerVoices (enum (speakersSetList s))) ok
        ((events s).map Prod.snd)).1 ∧
    List.Pairwise (fun a b => a.1 ≤ b.1) (events s) ∧
    podcastSegs id okAll (("[INTRO MUSIC FADES IN]\nX: hi\n[MUSIC FADES OUT]").toList) =
      ([introClip, .fadeIn (.tone 392 3000 (-10)) 1500,
        .speech ("en-us") ("com") false (("hi").toList), .silent 300,
        .fadeOut (repClip outroJingle 2) 2000], []) := by
  intro enum ok s
  refine ⟨?_, ?_, by decide⟩
  · unfold podcastSegs
    rw [renderLoop_eq]
    simp
  · unfold events
    exact sortByPos_sorted _

